import Mathlib

/-!
Verification of the Informational-Retrieval-MCP repository.

This file gives a shallow embedding, in Lean 4, of the parts of the
repository that the specification talks about:

* `src/server.py` / `src/tools/utils.py`: `calculate_relevance_score`,
  `extract_relevant_excerpts`, and the MCP tool `get_knowledge_base`
  (corpus scan, ranking, page rendering, diagnostics);
* `src/client-sse.py`: the tool-call processing loop of
  `MCPOpenAIClient.process_query` (image detection, vision switch,
  tool-result appending, and the final completion request).

Python strings are modelled as `List Char` (`PyStr`).  Python's ASCII
`str.lower` is modelled by `Char.toLower` (the repository only exercises
ASCII).  External collaborators (PDF layout extraction, the `fitz`
renderer, `json.loads`, the filesystem, the completion API) are modelled
as explicit inputs, exactly at the boundary at which the source calls
them; the control flow around them is translated from the source line by
line.
-/

/-- Python strings, modelled as lists of characters. -/
abbrev PyStr := List Char

/-- Whitespace recognised by Python's `str.split()` / `str.strip()`
(ASCII fragment). -/
def pyIsWS (c : Char) : Bool :=
  c = ' ' || c = '\t' || c = '\n' || c = '\r' || c = '\x0b' || c = '\x0c'

/-- Python `str.lower()` (ASCII fragment, per-character `Char.toLower`). -/
def pyToLower (s : PyStr) : PyStr := s.map Char.toLower

/-- Python `str.strip()`: drop leading and trailing whitespace. -/
def pyStrip (s : PyStr) : PyStr :=
  ((s.dropWhile pyIsWS).reverse.dropWhile pyIsWS).reverse

/-- Helper for `pySplit`: scan the string once, accumulating the current
token in reverse. -/
def pySplitGo : PyStr → PyStr → List PyStr
  | [], acc => if acc.isEmpty then [] else [acc.reverse]
  | c :: rest, acc =>
    if pyIsWS c then
      if acc.isEmpty then pySplitGo rest [] else acc.reverse :: pySplitGo rest []
    else pySplitGo rest (c :: acc)

/-- Python `str.split()` with no argument: split on runs of whitespace,
producing no empty tokens. -/
def pySplit (s : PyStr) : List PyStr := pySplitGo s []

/-- `needle` occurs in `hay` starting at position `i`
(Python substring match at a fixed offset). -/
def occursAt (needle hay : PyStr) (i : Nat) : Bool :=
  needle.isPrefixOf (hay.drop i)

/-- Python's `needle in hay` substring test. -/
def pyContains (hay needle : PyStr) : Bool :=
  (List.range (hay.length + 1)).any (occursAt needle hay)

/-- Python `hay.find(needle, start)`: the least position `≥ start` at which
`needle` occurs in `hay`, or `none` (Python returns `-1`). -/
def pyFindFrom (hay needle : PyStr) (start : Nat) : Option Nat :=
  ((List.range (hay.length + 1)).filter
    (fun i => decide (start ≤ i) && occursAt needle hay i)).head?

/-- `src/tools/utils.py` (and the identical copy in `src/server.py`),
`calculate_relevance_score`: the source lowercases the page text once and
then, iterating over `set(query_keywords)`, adds 1 for every keyword
contained in the lowered text.  Since only the number of distinct matching
keywords is ever used, the set is modelled by `List.dedup`.  Note the
keyword itself is NOT lowercased here. -/
def calculate_relevance_score (page_text : PyStr) (query_keywords : List PyStr) : Nat :=
  ((query_keywords.dedup).filter
    (fun keyword => pyContains (pyToLower page_text) keyword)).length

/-- Case-insensitive prefix test, as used by a `re` match with
`re.IGNORECASE` on an escaped (literal) pattern. -/
def ciIsPrefix (needle hay : PyStr) : Bool :=
  (pyToLower needle).isPrefixOf (pyToLower hay)

/-- Helper for `ciSubst`, structurally recursive on a fuel argument; the
fuel bounds the number of scan steps, each of which consumes at least one
character, so `length + 1` units never run out. -/
def ciSubstGo (needle repl : PyStr) : Nat → PyStr → PyStr
  | _, [] => if needle.isEmpty then repl else []
  | 0, s => s
  | fuel + 1, c :: rest =>
    if needle.isEmpty then repl ++ c :: ciSubstGo needle repl fuel rest
    else if ciIsPrefix needle (c :: rest) then
      repl ++ ciSubstGo needle repl fuel ((c :: rest).drop needle.length)
    else c :: ciSubstGo needle repl fuel rest

/-- Python `re.sub(re.escape(needle), repl, text, flags=re.IGNORECASE)`:
replace every leftmost non-overlapping case-insensitive occurrence of
`needle` in `text` by `repl` (for an empty pattern, `re.sub` inserts the
replacement at every position, including the end). -/
def ciSubst (needle repl s : PyStr) : PyStr :=
  ciSubstGo needle repl (s.length + 1) s

/-- The excerpt the source builds for a match of keyword `kw` at position
`pos` of `text`: the slice
`text[max(0, pos - L//2) : min(len(text), pos + len(kw) + L//2)]`,
stripped, with every case-insensitive occurrence of the keyword replaced
by the keyword (caller's casing) wrapped in `**` markers. -/
def mkExcerpt (text kw : PyStr) (excerpt_length pos : Nat) : PyStr :=
  let startEx := pos - excerpt_length / 2
  let endEx := min text.length (pos + kw.length + excerpt_length / 2)
  ciSubst kw (('*' :: '*' :: kw) ++ ['*', '*'])
    (pyStrip ((text.drop startEx).take (endEx - startEx)))

/-- Helper for `excerptLoop`, structurally recursive on a fuel argument;
`start_pos` strictly increases every step and `pyFindFrom` fails once it
passes the text length, so `length + 1` units never run out. -/
def excerptLoopGo (text textLower kw kwLower : PyStr) (excerpt_length : Nat) :
    Nat → Nat → List PyStr → List PyStr
  | 0, _, excerpts => excerpts
  | fuel + 1, start_pos, excerpts =>
    match pyFindFrom textLower kwLower start_pos with
    | none => excerpts
    | some pos =>
      let excerpt := mkExcerpt text kw excerpt_length pos
      let excerpts := if excerpt ∈ excerpts then excerpts else excerpts ++ [excerpt]
      excerptLoopGo text textLower kw kwLower excerpt_length fuel (pos + 1) excerpts

/-- The inner `while True` loop of `extract_relevant_excerpts`: scan the
occurrences of `kwLower` in `textLower` from `start_pos` on (advancing by
1 after each hit, so overlapping occurrences are all visited), appending
each excerpt to `excerpts` unless already present. -/
def excerptLoop (text textLower kw kwLower : PyStr) (excerpt_length : Nat)
    (start_pos : Nat) (excerpts : List PyStr) : List PyStr :=
  excerptLoopGo text textLower kw kwLower excerpt_length
    (textLower.length + 1) start_pos excerpts

/-- `src/tools/utils.py` (and `src/server.py`), `extract_relevant_excerpts`:
for each keyword in caller order, scan all case-insensitive occurrences
and collect deduplicated highlighted excerpts (all keywords share one
accumulator). -/
def extract_relevant_excerpts (text : PyStr) (keywords : List PyStr)
    (excerpt_length : Nat := 200) : List PyStr :=
  keywords.foldl
    (fun excerpts kw =>
      excerptLoop text (pyToLower text) kw (pyToLower kw) excerpt_length 0 excerpts)
    []

/-- Python `str.rfind('.')` on a file name: index of the last dot, if any. -/
def pyRfindDot (s : PyStr) : Option Nat :=
  ((List.range s.length).filter (fun i => s.getD i ' ' == '.')).getLast?

/-- `pathlib.PurePath.suffix`: the extension from the last dot on, when the
last dot is neither the first nor the last character; otherwise empty. -/
def pathSuffix (name : PyStr) : PyStr :=
  match pyRfindDot name with
  | some i => if 0 < i && i + 1 < name.length then name.drop i else []
  | none => []

/-- `pathlib.PurePath.stem`: the name up to (excluding) the suffix. -/
def pathStem (name : PyStr) : PyStr :=
  match pyRfindDot name with
  | some i => if 0 < i && i + 1 < name.length then name.take i else name
  | none => name

/-- One hexadecimal digit (lower case), as produced by `json.dumps`
escapes. -/
def hexDigit (n : Nat) : Char :=
  if n < 10 then Char.ofNat (48 + n) else Char.ofNat (87 + n)

/-- `json.dumps` escaping of a single character (ASCII fragment: quote,
backslash, and the C0 control characters, with the shorthand escapes
Python uses). -/
def jsonEscapeChar (c : Char) : PyStr :=
  if c = '"' then ['\\', '"']
  else if c = '\\' then ['\\', '\\']
  else if c = '\n' then ['\\', 'n']
  else if c = '\t' then ['\\', 't']
  else if c = '\r' then ['\\', 'r']
  else if c = '\x08' then ['\\', 'b']
  else if c = '\x0c' then ['\\', 'f']
  else if c.toNat < 32 then
    '\\' :: 'u' :: '0' :: '0' :: [hexDigit (c.toNat / 16), hexDigit (c.toNat % 16)]
  else [c]

/-- `json.dumps` of a string value. -/
def jsonString (s : PyStr) : PyStr :=
  '"' :: (s.map jsonEscapeChar).flatten ++ ['"']

/-- Decimal rendering of a natural number (Python `str(n)` / `f"{n}"`). -/
def natToStr (n : Nat) : PyStr := (Nat.repr n).toList

/-- The per-page success records appended to `output_image_paths` in
`get_knowledge_base` (`src/server.py`), a dict with keys
path, source, page, score in insertion order. -/
structure ImgEntry where
  path : PyStr
  source : PyStr
  page : Nat
  score : Nat
deriving DecidableEq, Repr

/-- `json.dumps` of one `output_image_paths` entry. -/
def jsonDumpEntry (e : ImgEntry) : PyStr :=
  "\x7b\"path\": ".toList ++ jsonString e.path
    ++ ", \"source\": ".toList ++ jsonString e.source
    ++ ", \"page\": ".toList ++ natToStr e.page
    ++ ", \"score\": ".toList ++ natToStr e.score ++ ['\x7d']

/-- `json.dumps({"relevant_images": output_image_paths})`, the success
return value of `get_knowledge_base`. -/
def jsonDumpsRelevantImages (es : List ImgEntry) : PyStr :=
  "\x7b\"relevant_images\": [".toList
    ++ (List.intersperse ", ".toList (es.map jsonDumpEntry)).flatten
    ++ [']', '\x7d']

/-- Outcome of the `fitz` rendering steps on one page, as provided by the
external PDF library: success, or an exception raised by `fitz.open`,
`doc.load_page`, `page.get_pixmap`, or `pix.save`. -/
inductive RenderOutcome
  | ok | failOpen | failLoad | failPixmap | failSave
deriving DecidableEq, Repr

/-- The external renderer: which outcome `fitz` produces for a given
(file name, 1-based page number). -/
structure RenderEnv where
  outcome : PyStr → Nat → RenderOutcome

/-- Observable trace of one iteration of the rendering loop
(`src/server.py` lines 124-143): the entry appended to
`output_image_paths` (if any), whether `fitz.open` returned a document
handle, and whether `doc.close()` was reached. -/
structure RenderStep where
  result : Option ImgEntry
  handleOpened : Bool
  handleClosed : Bool
deriving DecidableEq, Repr

def output_folder : PyStr := "mcp_images".toList
def notes_folder : PyStr := "study_notes".toList

/-- One iteration of the rendering loop of `get_knowledge_base`: build the
output file name, then run `fitz.open; load_page; get_pixmap; save;
close; append` inside `try/except`.  An exception at any of the four
`fitz` steps jumps to the `except` handler, which only logs: `doc.close()`
is executed on the success path alone, and `fitz.open` failing means no
handle was ever produced. -/
def renderPage (env : RenderEnv) (score : Nat) (file_name : PyStr) (page_num : Nat) :
    RenderStep :=
  let output_image_name :=
    pathStem file_name ++ "_page_".toList ++ natToStr page_num ++ ".png".toList
  let output_image_path := output_folder ++ '/' :: output_image_name
  match env.outcome file_name page_num with
  | .ok => ⟨some ⟨output_image_path, file_name, page_num, score⟩, true, true⟩
  | .failOpen => ⟨none, false, false⟩
  | .failLoad => ⟨none, true, false⟩
  | .failPixmap => ⟨none, true, false⟩
  | .failSave => ⟨none, true, false⟩

/-- The rendering loop over the ranked top-5 pages: failures are caught by
the per-page `except`, only successes are appended, iteration always
continues. -/
def renderBatch (env : RenderEnv) : List (Nat × PyStr × Nat) → List ImgEntry
  | [] => []
  | (score, file_name, page_num) :: rest =>
    match (renderPage env score file_name page_num).result with
    | some e => e :: renderBatch env rest
    | none => renderBatch env rest

/-- A directory entry of the corpus folder as `get_knowledge_base` sees
it: its name, whether it is a regular file, and the result of the
external `extract_pages` + `mine_text` pipeline on it — `ok` gives the
mined text of each page in order, `error` models the extraction raising
an exception. -/
structure NoteFile where
  name : PyStr
  isFile : Bool
  pages : Except Unit (List PyStr)

/-- Scanning one directory entry (`src/server.py` lines 107-114): only
regular files with suffix `.pdf` are read; each nonempty page text is
scored and kept when the score reaches `RELEVANCE_THRESHOLD = 1`. -/
def scanFile (query_keywords : List PyStr) (f : NoteFile) :
    Except Unit (List (Nat × PyStr × Nat)) :=
  if f.isFile && (pathSuffix f.name == ".pdf".toList) then
    match f.pages with
    | .error e => .error e
    | .ok pages =>
      .ok ((pages.enumFrom 1).filterMap (fun pt =>
        if pt.2.isEmpty then none
        else
          let score := calculate_relevance_score pt.2 query_keywords
          if 1 ≤ score then some (score, f.name, pt.1) else none))
  else .ok []

/-- Scanning the whole corpus directory in iteration order; an extraction
exception on any file propagates (uncaught at this level). -/
def scanFiles (query_keywords : List PyStr) :
    List NoteFile → Except Unit (List (Nat × PyStr × Nat))
  | [] => .ok []
  | f :: rest =>
    match scanFile query_keywords f with
    | .error e => .error e
    | .ok here =>
      match scanFiles query_keywords rest with
      | .error e => .error e
      | .ok there => .ok (here ++ there)

/-- The comparison under `relevant_pages.sort(key=lambda x: x[0],
reverse=True)`: `a` may come before `b` iff `a`'s score is ≥ `b`'s. -/
def pageLE (a b : Nat × PyStr × Nat) : Bool := decide (b.1 ≤ a.1)

/-- Ranking step of `get_knowledge_base` (lines 119-124): Python's
`list.sort` is a stable sort, and with `reverse=True` it stably orders by
descending key; `List.mergeSort` is stable for the same preorder, so the
two produce the same list.  Then `relevant_pages[:5]`. -/
def rankPages (relevant_pages : List (Nat × PyStr × Nat)) : List (Nat × PyStr × Nat) :=
  (relevant_pages.mergeSort pageLE).take 5

/-- The environment `get_knowledge_base` runs against: whether
`study_notes` exists, the corpus directory entries in iteration order,
and the external renderer. -/
structure KBEnv where
  studyNotesFolderExists : Bool
  files : List NoteFile
  render : RenderEnv

/-- The slice of filesystem state the claims observe: existence of the
`mcp_images` output directory. -/
structure FSState where
  mcpImagesExists : Bool
deriving DecidableEq, Repr

/-- `[keyword.lower().strip() for keyword in query.split()] if query else []`. -/
def queryKeywords (query : PyStr) : List PyStr :=
  if query.isEmpty then []
  else (pySplit query).map (fun keyword => pyStrip (pyToLower keyword))

/-- The body of the `try` block of `get_knowledge_base` after the `mkdir`
(lines 95-145); `.error` means an uncaught exception reaches the
function's top-level handler. -/
def get_kb_body (env : KBEnv) (query : PyStr) : Except Unit PyStr :=
  if !env.studyNotesFolderExists then
    .ok "Error: Study notes folder not found".toList
  else
    let query_keywords := queryKeywords query
    if query_keywords.isEmpty then
      .ok "Please provide a query to search the knowledge base.".toList
    else
      match scanFiles query_keywords env.files with
      | .error e => .error e
      | .ok relevant_pages =>
        if relevant_pages.isEmpty then
          .ok "No relevant information found for your query.".toList
        else
          let top5 := rankPages relevant_pages
          let output_image_paths := renderBatch env.render top5
          .ok (jsonDumpsRelevantImages output_image_paths)

/-- `src/server.py`, `get_knowledge_base`: `mcp_images` is created
(`mkdir(exist_ok=True)`) before any validation, then the body runs; any
exception escaping the body is converted by the top-level handler into a
fixed diagnostic string.  Returns the result string and the final
filesystem state. -/
def get_knowledge_base (env : KBEnv) (st : FSState) (query : PyStr) : PyStr × FSState :=
  let st1 : FSState := { mcpImagesExists := true }
  match get_kb_body env query with
  | .ok s => (s, st1)
  | .error _ => ("An error occurred while retrieving knowledge.".toList, st1)

/-- The base64 alphabet. -/
def b64Alphabet : PyStr :=
  "ABCDEFGHIJKLMNOPQRSTUVWXYZabcdefghijklmnopqrstuvwxyz0123456789+/".toList

/-- The base64 digit for a 6-bit value. -/
def b64Char (n : Nat) : Char := b64Alphabet.getD n '='

/-- `base64.b64encode` on a byte sequence (bytes are naturals < 256),
decoded to ASCII, with `=` padding. -/
def base64Encode : List Nat → PyStr
  | [] => []
  | [a] => [b64Char (a / 4), b64Char (a % 4 * 16), '=', '=']
  | [a, b] => [b64Char (a / 4), b64Char (a % 4 * 16 + b / 16), b64Char (b % 16 * 4), '=']
  | a :: b :: c :: rest =>
    b64Char (a / 4) :: b64Char (a % 4 * 16 + b / 16) ::
      b64Char (b % 16 * 4 + c / 64) :: b64Char (c % 64) :: base64Encode rest

/-- One element of a parsed `relevant_images` JSON array as the client
reads it: `img_data["path"]` is present (`some`) or missing (`none`,
raising `KeyError`). -/
structure ImgJson where
  path : Option PyStr
deriving DecidableEq, Repr

/-- The outcome of `json.loads` on a tool output string, at the
granularity the client's control flow distinguishes: the string is not
valid JSON (`json.loads` raises `JSONDecodeError`); it parses to a
non-dict value (then `"relevant_images" in data` raises an uncaught
`TypeError`); or it parses to a dict, with or without the
`relevant_images` key and with the parsed image entries. -/
inductive JsonShape
  | notJson
  | nonObject
  | object (hasRelevantImages : Bool) (relevantImages : List ImgJson)
deriving DecidableEq, Repr

/-- A tool result as the transport delivers it
(`result.content[0].text`), together with its `json.loads` outcome. -/
structure ToolOutput where
  text : PyStr
  json : JsonShape
deriving DecidableEq, Repr

/-- One entry of `assistant_message.tool_calls`, with the output the MCP
session returns for it. -/
structure ToolCallModel where
  name : PyStr
  id : PyStr
  output : ToolOutput
deriving DecidableEq, Repr

/-- One element of a structured message `content` array. -/
inductive ContentPart
  | text (s : PyStr)
  | imageUrl (url : PyStr)
deriving DecidableEq, Repr

/-- A conversation message, as built by `process_query`
(`src/client-sse.py`): the initial user message, a structured
(vision) user message, the assistant reply carrying the tool calls,
or a `role: tool` result message. -/
inductive Msg
  | userText (s : PyStr)
  | userParts (parts : List ContentPart)
  | assistantReply
  | toolMsg (tool_call_id : PyStr) (content : PyStr)
deriving DecidableEq, Repr

/-- The filesystem as the client sees it: `Path.exists()` and reading a
file's bytes are both modelled by `read`. -/
structure ClientFS where
  read : PyStr → Option (List Nat)

/-- The prefix of a data URL built for an encoded image. -/
def dataUrl (bytes : List Nat) : PyStr :=
  "data:image/png;base64,".toList ++ base64Encode bytes

/-- The `for img_data in data["relevant_images"]` loop of `process_query`
(lines 163-172): entries whose path does not exist on disk are skipped;
an entry without a `"path"` key raises `KeyError` (`.error`), which the
surrounding `except` catches. -/
def buildImageContent (fs : ClientFS) : List ImgJson → Except Unit (List ContentPart)
  | [] => .ok []
  | e :: rest =>
    match e.path with
    | none => .error ()
    | some p =>
      match fs.read p with
      | some bytes =>
        match buildImageContent fs rest with
        | .error u => .error u
        | .ok parts => .ok (.imageUrl (dataUrl bytes) :: parts)
      | none => buildImageContent fs rest

/-- What one iteration of the tool-call loop does: continue (appending a
tool message, or nothing), switch to vision mode with the assembled image
content (the `break`), or raise an uncaught `TypeError`. -/
inductive StepResult
  | cont (append : Option Msg)
  | vision (imageContent : List ContentPart)
  | typeError
deriving DecidableEq, Repr

def kbToolName : PyStr := "get_knowledge_base".toList

/-- One iteration of `for tool_call in assistant_message.tool_calls`
(lines 149-200): only `get_knowledge_base` output is inspected;
`JSONDecodeError`/`KeyError` fall back to appending the raw output; a
dict without `relevant_images`, or one whose image list yields no
encodable segments, falls through silently; a non-empty `image_content`
triggers the vision switch; any other tool's output is appended. -/
def processToolCall (fs : ClientFS) (tc : ToolCallModel) : StepResult :=
  if tc.name = kbToolName then
    match tc.output.json with
    | .notJson => .cont (some (.toolMsg tc.id tc.output.text))
    | .nonObject => .typeError
    | .object hasKey imgs =>
      if hasKey then
        match buildImageContent fs imgs with
        | .error _ => .cont (some (.toolMsg tc.id tc.output.text))
        | .ok image_content =>
          if image_content.isEmpty then .cont none
          else .vision image_content
      else .cont none
  else .cont (some (.toolMsg tc.id tc.output.text))

/-- The state of the round when the tool loop finishes: the conversation,
the `images_processed` flag, the ids of the tool calls that were actually
executed (in order), and whether an uncaught exception aborted
`process_query`. -/
structure RoundOutcome where
  messages : List Msg
  imagesProcessed : Bool
  executed : List PyStr
  aborted : Bool
deriving DecidableEq, Repr

/-- The fixed text prefixed to the query in the vision message. -/
def visionPreamble : PyStr :=
  "Based on these document pages, please answer the following query: ".toList

/-- The tool-call loop of `process_query`: each call is executed through
the transport in return order; on the vision switch the loop ends via
`break` — the remaining calls are neither executed nor appended and the
message list is replaced by the single structured user message; on an
uncaught exception the loop aborts. -/
def runToolLoop (fs : ClientFS) (query : PyStr) :
    List ToolCallModel → List Msg → RoundOutcome
  | [], messages => ⟨messages, false, [], false⟩
  | tc :: rest, messages =>
    match processToolCall fs tc with
    | .typeError => ⟨messages, false, [tc.id], true⟩
    | .vision image_content =>
      ⟨[.userParts (.text (visionPreamble ++ query) :: image_content)],
        true, [tc.id], false⟩
    | .cont app =>
      let r := runToolLoop fs query rest (messages ++ app.toList)
      ⟨r.messages, r.imagesProcessed, tc.id :: r.executed, r.aborted⟩

/-- The conversation before the tool loop starts: the user query and the
assistant message that carried the tool calls. -/
def initialMessages (query : PyStr) : List Msg :=
  [.userText query, .assistantReply]

/-- The final completion request `process_query` issues (lines 202-217):
after a vision switch the request carries the replaced messages and *no*
tool catalog; otherwise it carries the accumulated messages, the tool
catalog, and `tool_choice="none"`. -/
structure CompletionRequest where
  messages : List Msg
  toolsAttached : Bool
  toolChoice : Option PyStr
deriving DecidableEq, Repr

/-- `process_query` from the start of the tool loop to the final API
call; `.error` models an uncaught exception reaching the outer handler
(which returns an error string and issues no final request). -/
def process_query_final_request (fs : ClientFS) (query : PyStr)
    (toolCalls : List ToolCallModel) : Except Unit CompletionRequest :=
  let r := runToolLoop fs query toolCalls (initialMessages query)
  if r.aborted then .error ()
  else if r.imagesProcessed then .ok ⟨r.messages, false, none⟩
  else .ok ⟨r.messages, true, some "none".toList⟩

/-- Written from the spec sentence for claim C3 (not from the source), for
comparison: the number of distinct keywords, de-duplicated and matched
case-insensitively, occurring anywhere in the page text. -/
def spec_ci_score (page_text : PyStr) (query_keywords : List PyStr) : Nat :=
  (((query_keywords.map pyToLower).dedup).filter
    (fun keyword => pyContains (pyToLower page_text) keyword)).length


/-- Scenario E corpus: one PDF whose 7 nonempty pages score
[3, 3, 2, 2, 1, 1, 1] against the query keywords `a b c`, in encounter
order. -/
def scenarioFiles : List NoteFile :=
  [⟨"notes.pdf".toList, true,
    .ok ["a b c".toList, "c b a".toList, "a b".toList, "b c".toList,
         "a".toList, "b".toList, "c".toList]⟩]

/-- The `relevant_pages` list the Scenario E corpus produces. -/
def scenarioPages : List (Nat × PyStr × Nat) :=
  [(3, "notes.pdf".toList, 1), (3, "notes.pdf".toList, 2),
   (2, "notes.pdf".toList, 3), (2, "notes.pdf".toList, 4),
   (1, "notes.pdf".toList, 5), (1, "notes.pdf".toList, 6),
   (1, "notes.pdf".toList, 7)]

/-! ## Supporting lemmas -/

theorem pyFindFrom_bounds {hay needle : PyStr} {start pos : Nat}
    (h : pyFindFrom hay needle start = some pos) :
    start ≤ pos ∧ pos ≤ hay.length ∧ occursAt needle hay pos = true := by
  unfold pyFindFrom at h
  have hmem : pos ∈ (List.range (hay.length + 1)).filter
      (fun i => decide (start ≤ i) && occursAt needle hay i) :=
    List.mem_of_mem_head? h
  rw [List.mem_filter, List.mem_range] at hmem
  obtain ⟨hr, hb⟩ := hmem
  simp only [Bool.and_eq_true, decide_eq_true_eq] at hb
  exact ⟨hb.1, by omega, hb.2⟩


theorem charToNatOfNatValid {n : Nat} (h : n.isValidChar) : (Char.ofNat n).toNat = n := by
  rw [Char.ofNat, dif_pos h]
  simp [Char.ofNatAux, Char.toNat, UInt32.toNat, BitVec.ofNatLt]

theorem toLowerIdem (c : Char) : (c.toLower).toLower = c.toLower := by
  unfold Char.toLower
  by_cases h : c.toNat ≥ 65 ∧ c.toNat ≤ 90
  · rw [if_pos h]
    have hv : (Char.ofNat (c.toNat + 32)).toNat = c.toNat + 32 :=
      charToNatOfNatValid (Or.inl (by omega))
    rw [if_neg (by omega)]
  · rw [if_neg h, if_neg h]

theorem score_eq_zero_of_no_match {t : PyStr} {kws : List PyStr}
    (h : ∀ k ∈ kws, pyContains (pyToLower t) k = false) :
    calculate_relevance_score t kws = 0 := by
  unfold calculate_relevance_score
  rw [List.length_eq_zero, List.filter_eq_nil_iff]
  intro k hk
  simp [h k (List.mem_dedup.mp hk)]

theorem scanFile_no_match {kws : List PyStr} {f : NoteFile} {ps : List PyStr}
    (hp : f.pages = .ok ps)
    (h : ∀ t ∈ ps, ∀ k ∈ kws, pyContains (pyToLower t) k = false) :
    scanFile kws f = .ok [] := by
  unfold scanFile
  by_cases hf : (f.isFile && (pathSuffix f.name == ".pdf".toList)) = true
  · have hnil : ((ps.enumFrom 1).filterMap (fun pt =>
        if pt.2.isEmpty then none
        else
          let score := calculate_relevance_score pt.2 kws
          if 1 ≤ score then some (score, f.name, pt.1) else none)) = [] := by
      rw [List.filterMap_eq_nil_iff]
      intro pt hpt
      have ht : pt.2 ∈ ps := by
        have := List.mem_map_of_mem Prod.snd hpt
        rwa [List.enumFrom_map_snd] at this
      by_cases he : pt.2.isEmpty
      · simp [he]
      · have hs := score_eq_zero_of_no_match (fun k hk => h pt.2 ht k hk)
        simp [he, hs]
    rw [if_pos hf, hp]
    exact congrArg Except.ok hnil
  · rw [if_neg hf]

theorem scanFiles_no_match {kws : List PyStr} {files : List NoteFile}
    (h : ∀ f ∈ files, ∃ ps, f.pages = .ok ps ∧
      ∀ t ∈ ps, ∀ k ∈ kws, pyContains (pyToLower t) k = false) :
    scanFiles kws files = .ok [] := by
  induction files with
  | nil => rfl
  | cons f rest ih =>
    obtain ⟨ps, hp, hm⟩ := h f (by simp)
    have hrest := ih (fun g hg => h g (by simp [hg]))
    simp only [scanFiles, scanFile_no_match hp hm, hrest]
    rfl

/-! ## Claim theorems -/

/-- Claim C5: `get_knowledge_base` returns exactly the literal diagnostic
string matching its failure condition — the corpus-missing string when
`study_notes` is absent, the empty-query prompt when tokenisation yields
no keywords, and the no-matches string when the corpus is present, the
query yields keywords, and no page contains any query keyword. -/
theorem c5_diagnostic_strings (env : KBEnv) (st : FSState) (query : PyStr) :
    (env.studyNotesFolderExists = false →
        (get_knowledge_base env st query).1 =
          "Error: Study notes folder not found".toList) ∧
    (env.studyNotesFolderExists = true → queryKeywords query = [] →
        (get_knowledge_base env st query).1 =
          "Please provide a query to search the knowledge base.".toList) ∧
    (env.studyNotesFolderExists = true → queryKeywords query ≠ [] →
        (∀ f ∈ env.files, ∃ ps, f.pages = .ok ps ∧
          ∀ t ∈ ps, ∀ k ∈ queryKeywords query, pyContains (pyToLower t) k = false) →
        (get_knowledge_base env st query).1 =
          "No relevant information found for your query.".toList) := by
  refine ⟨?_, ?_, ?_⟩
  · intro h
    simp [get_knowledge_base, get_kb_body, h]
  · intro h hq
    simp [get_knowledge_base, get_kb_body, h, hq]
  · intro h hq hm
    simp [get_knowledge_base, get_kb_body, h, scanFiles_no_match hm,
      List.isEmpty_iff, hq]

/-- Witness for C5: each of the three diagnostics observed on a concrete
environment. -/
theorem c5_diagnostic_strings_witness :
    (get_knowledge_base ⟨false, [], ⟨fun _ _ => .ok⟩⟩ ⟨false⟩ "anything".toList).1 =
        "Error: Study notes folder not found".toList ∧
    (get_knowledge_base ⟨true, [], ⟨fun _ _ => .ok⟩⟩ ⟨false⟩ "   ".toList).1 =
        "Please provide a query to search the knowledge base.".toList ∧
    (get_knowledge_base
        ⟨true, [⟨"a.pdf".toList, true, .ok ["gamma delta".toList]⟩], ⟨fun _ _ => .ok⟩⟩
        ⟨false⟩ "alpha".toList).1 =
        "No relevant information found for your query.".toList :=
  ⟨(c5_diagnostic_strings _ _ _).1 (by decide),
   (c5_diagnostic_strings _ _ _).2.1 (by decide) (by decide),
   (c5_diagnostic_strings _ _ _).2.2 (by decide) (by decide)
     (by
       intro f hf
       simp only [List.mem_singleton] at hf
       subst hf
       exact ⟨["gamma delta".toList], rfl, by decide⟩)⟩

/-- Claim C9: `get_knowledge_base` never raises — its whole body runs
under a top-level handler, so an uncaught internal exception is converted
into the fixed string, and otherwise the body's value is returned. -/
theorem c9_never_raises (env : KBEnv) (st : FSState) (query : PyStr) :
    (∀ u, get_kb_body env query = .error u →
        (get_knowledge_base env st query).1 =
          "An error occurred while retrieving knowledge.".toList) ∧
    (∀ s, get_kb_body env query = .ok s →
        (get_knowledge_base env st query).1 = s) := by
  constructor
  · intro u h
    simp [get_knowledge_base, h]
  · intro s h
    simp [get_knowledge_base, h]

/-- Witness for C9: a corpus file whose extraction raises makes the body
error, and the tool returns the fixed string. -/
theorem c9_never_raises_witness :
    get_kb_body ⟨true, [⟨"a.pdf".toList, true, .error ()⟩], ⟨fun _ _ => .ok⟩⟩
        "alpha".toList = .error () ∧
    (get_knowledge_base ⟨true, [⟨"a.pdf".toList, true, .error ()⟩], ⟨fun _ _ => .ok⟩⟩
        ⟨true⟩ "alpha".toList).1 =
      "An error occurred while retrieving knowledge.".toList :=
  ⟨rfl, (c9_never_raises _ _ _).1 () rfl⟩

/-- Claim C10: the `mcp_images` output directory is created before any
validation, so every call — including the ones answering the
missing-corpus or empty-query diagnostics — leaves it existing. -/
theorem c10_output_dir_created :
    (∀ (env : KBEnv) (st : FSState) (query : PyStr),
        ((get_knowledge_base env st query).2).mcpImagesExists = true) ∧
    ((get_knowledge_base ⟨false, [], ⟨fun _ _ => .ok⟩⟩ ⟨false⟩ "x".toList).1 =
        "Error: Study notes folder not found".toList ∧
      ((get_knowledge_base ⟨false, [], ⟨fun _ _ => .ok⟩⟩ ⟨false⟩
          "x".toList).2).mcpImagesExists = true) ∧
    ((get_knowledge_base ⟨true, [], ⟨fun _ _ => .ok⟩⟩ ⟨false⟩ "".toList).1 =
        "Please provide a query to search the knowledge base.".toList ∧
      ((get_knowledge_base ⟨true, [], ⟨fun _ _ => .ok⟩⟩ ⟨false⟩
          "".toList).2).mcpImagesExists = true) := by
  refine ⟨fun env st query => ?_, by decide, by decide⟩
  unfold get_knowledge_base
  cases get_kb_body env query <;> rfl

/-- Counterexample to C6 as stated: on a page where `doc.load_page`
raises, the handle was opened but `doc.close()` is never reached — the
release is not unconditional. -/
theorem c6_counterexample :
    (renderPage ⟨fun _ _ => .failLoad⟩ 3 "a.pdf".toList 1).handleOpened = true ∧
    (renderPage ⟨fun _ _ => .failLoad⟩ 3 "a.pdf".toList 1).result = none ∧
    (renderPage ⟨fun _ _ => .failLoad⟩ 3 "a.pdf".toList 1).handleClosed = false := by
  decide

/-- Claim C6 (amended): the renderer releases the document handle on the
success path only; on any failure after `fitz.open` the per-page handler
skips the close, and when `fitz.open` itself fails no handle exists. -/
theorem c6_handle_release (env : RenderEnv) (score : Nat)
    (file_name : PyStr) (page_num : Nat) :
    ((renderPage env score file_name page_num).handleClosed = true ↔
      env.outcome file_name page_num = .ok) ∧
    ((renderPage env score file_name page_num).handleOpened = true ↔
      env.outcome file_name page_num ≠ .failOpen) := by
  unfold renderPage
  cases env.outcome file_name page_num <;> simp

/-- Witness for C6 (amended) at a concrete successful render. -/
theorem c6_handle_release_witness :
    ((renderPage ⟨fun _ _ => .ok⟩ 3 "b.pdf".toList 2).handleClosed = true ↔
      (RenderEnv.mk fun _ _ => .ok).outcome "b.pdf".toList 2 = .ok) ∧
    ((renderPage ⟨fun _ _ => .ok⟩ 3 "b.pdf".toList 2).handleOpened = true ↔
      (RenderEnv.mk fun _ _ => .ok).outcome "b.pdf".toList 2 ≠ .failOpen) :=
  c6_handle_release _ _ _ _

theorem renderPage_result_none {env : RenderEnv} {s : Nat} {n : PyStr} {p : Nat}
    (h : env.outcome n p ≠ .ok) : (renderPage env s n p).result = none := by
  unfold renderPage
  cases he : env.outcome n p <;> simp_all

/-- Claim C7: a failing page is caught and skipped and the rendered
output of the batch is exactly what it would be had the failing page not
been in the batch. -/
theorem c7_render_isolation (env : RenderEnv) (pre post : List (Nat × PyStr × Nat))
    (s : Nat) (n : PyStr) (p : Nat) (h : env.outcome n p ≠ .ok) :
    renderBatch env (pre ++ (s, n, p) :: post) = renderBatch env (pre ++ post) := by
  induction pre with
  | nil =>
    simp only [List.nil_append]
    rw [renderBatch, renderPage_result_none h]
  | cons hd tl ih =>
    obtain ⟨s0, n0, p0⟩ := hd
    simp only [List.cons_append]
    rw [renderBatch, renderBatch]
    cases (renderPage env s0 n0 p0).result <;> simp [ih]

/-- Witness for C7: dropping a failing middle page leaves the sibling
renders unchanged. -/
theorem c7_render_isolation_witness :
    (RenderEnv.mk fun _ p => if p = 2 then .failLoad else .ok).outcome
        "a.pdf".toList 2 ≠ .ok ∧
    renderBatch ⟨fun _ p => if p = 2 then .failLoad else .ok⟩
        [(3, "a.pdf".toList, 1), (2, "a.pdf".toList, 2), (1, "b.pdf".toList, 1)] =
      renderBatch ⟨fun _ p => if p = 2 then .failLoad else .ok⟩
        [(3, "a.pdf".toList, 1), (1, "b.pdf".toList, 1)] :=
  ⟨by decide,
   c7_render_isolation _ [(3, "a.pdf".toList, 1)] [(1, "b.pdf".toList, 1)] 2
     "a.pdf".toList 2 (by decide)⟩

/-- Counterexample to C1 as stated: a `get_knowledge_base` result whose
text contains `relevant_images` (and parses to a dict carrying the key,
with an empty image list) does NOT switch the round to vision mode — the
conversation is left as it was and the final request still attaches the
tool catalog. -/
theorem c1_counterexample :
    pyContains "\x7b\"relevant_images\": []\x7d".toList "relevant_images".toList = true ∧
    runToolLoop ⟨fun _ => none⟩ "q".toList
        [⟨kbToolName, "id1".toList,
          ⟨"\x7b\"relevant_images\": []\x7d".toList, .object true []⟩⟩]
        (initialMessages "q".toList) =
      ⟨initialMessages "q".toList, false, ["id1".toList], false⟩ ∧
    process_query_final_request ⟨fun _ => none⟩ "q".toList
        [⟨kbToolName, "id1".toList,
          ⟨"\x7b\"relevant_images\": []\x7d".toList, .object true []⟩⟩] =
      .ok ⟨initialMessages "q".toList, true, some "none".toList⟩ :=
  ⟨by decide, by decide, rfl⟩

/-- Claim C1 (amended): when a `get_knowledge_base` result parses to a
dict with `relevant_images` and its entries yield at least one encodable
image segment (the file exists on disk), and every earlier tool call of
the round merely continued, the round switches to vision mode: the
remaining tool calls are abandoned (neither executed nor appended), the
conversation is replaced by one user message combining the prefixed query
text with one inline base64 image segment per encoded image, and the
final completion request attaches no tool catalog. -/
theorem c1_vision_switch (fs : ClientFS) (query : PyStr)
    (pre post : List ToolCallModel) (tc : ToolCallModel) (msgs : List Msg)
    (imgs : List ImgJson) (content : List ContentPart)
    (hpre : ∀ c ∈ pre, ∃ a, processToolCall fs c = .cont a)
    (hname : tc.name = kbToolName)
    (hjson : tc.output.json = .object true imgs)
    (hbuild : buildImageContent fs imgs = .ok content)
    (hne : content ≠ []) :
    runToolLoop fs query (pre ++ tc :: post) msgs =
      ⟨[.userParts (.text (visionPreamble ++ query) :: content)], true,
        pre.map (fun c => c.id) ++ [tc.id], false⟩ ∧
    process_query_final_request fs query (pre ++ tc :: post) =
      .ok ⟨[.userParts (.text (visionPreamble ++ query) :: content)], false, none⟩ := by
  have hstep : processToolCall fs tc = .vision content := by
    unfold processToolCall
    rw [if_pos hname, hjson]
    simp only [if_pos]
    rw [hbuild]
    simp [List.isEmpty_iff, hne]
  have hloop : ∀ (ms : List Msg), runToolLoop fs query (pre ++ tc :: post) ms =
      ⟨[.userParts (.text (visionPreamble ++ query) :: content)], true,
        pre.map (fun c => c.id) ++ [tc.id], false⟩ := by
    induction pre with
    | nil =>
      intro ms
      simp only [List.nil_append, runToolLoop, hstep]
      rfl
    | cons hd tl ih =>
      intro ms
      obtain ⟨a, ha⟩ := hpre hd (by simp)
      have htl := ih (fun c hc => hpre c (by simp [hc]))
      simp only [List.cons_append, runToolLoop, ha, List.append_eq]
      rw [htl]
      rfl
  refine ⟨hloop msgs, ?_⟩
  unfold process_query_final_request
  rw [hloop (initialMessages query)]
  rfl

/-- Witness for C1 (amended): a concrete round with a preceding ordinary
tool call, one abandoned trailing call, and one image that exists on
disk. -/
theorem c1_vision_switch_witness :
    runToolLoop ⟨fun _ => some [1, 2, 3]⟩ "q".toList
        [⟨"other_tool".toList, "id0".toList, ⟨"hi".toList, .notJson⟩⟩,
         ⟨kbToolName, "id1".toList,
          ⟨"ignored".toList, .object true [⟨some "mcp_images/p.png".toList⟩]⟩⟩,
         ⟨"other_tool".toList, "id2".toList, ⟨"bye".toList, .notJson⟩⟩]
        (initialMessages "q".toList) =
      ⟨[.userParts [.text (visionPreamble ++ "q".toList), .imageUrl (dataUrl [1, 2, 3])]],
        true, ["id0".toList, "id1".toList], false⟩ ∧
    process_query_final_request ⟨fun _ => some [1, 2, 3]⟩ "q".toList
        [⟨"other_tool".toList, "id0".toList, ⟨"hi".toList, .notJson⟩⟩,
         ⟨kbToolName, "id1".toList,
          ⟨"ignored".toList, .object true [⟨some "mcp_images/p.png".toList⟩]⟩⟩,
         ⟨"other_tool".toList, "id2".toList, ⟨"bye".toList, .notJson⟩⟩] =
      .ok ⟨[.userParts [.text (visionPreamble ++ "q".toList),
              .imageUrl (dataUrl [1, 2, 3])]], false, none⟩ :=
  c1_vision_switch ⟨fun _ => some [1, 2, 3]⟩ "q".toList
    [⟨"other_tool".toList, "id0".toList, ⟨"hi".toList, .notJson⟩⟩]
    [⟨"other_tool".toList, "id2".toList, ⟨"bye".toList, .notJson⟩⟩]
    ⟨kbToolName, "id1".toList,
      ⟨"ignored".toList, .object true [⟨some "mcp_images/p.png".toList⟩]⟩⟩
    (initialMessages "q".toList)
    [⟨some "mcp_images/p.png".toList⟩] [.imageUrl (dataUrl [1, 2, 3])]
    (by
      intro c hc
      simp only [List.mem_singleton] at hc
      subst hc
      exact ⟨some (.toolMsg "id0".toList "hi".toList), rfl⟩)
    rfl rfl rfl (by decide)

/-- Counterexample to C4 as stated: a `get_knowledge_base` output that
parses as JSON but has no images (a dict without usable image data) is
NOT appended as a tool-result message — it is dropped silently, leaving
the conversation unchanged. -/
theorem c4_counterexample :
    runToolLoop ⟨fun _ => none⟩ "q".toList
        [⟨kbToolName, "id9".toList, ⟨"\x7b\"foo\": 1\x7d".toList, .object false []⟩⟩]
        (initialMessages "q".toList) =
      ⟨initialMessages "q".toList, false, ["id9".toList], false⟩ ∧
    Msg.toolMsg "id9".toList "\x7b\"foo\": 1\x7d".toList ∉
      initialMessages "q".toList := by
  decide

/-- Claim C4 (amended): a tool output other than `get_knowledge_base`'s
is always appended as a `role: tool` message carrying the call's id, and
iteration continues; a `get_knowledge_base` output is appended exactly
when `json.loads` raises a decode error or image assembly raises a
missing-key error, while one that parses to a dict but yields no image
segments is dropped without being appended, iteration continuing in
either case. -/
theorem c4_append_and_continue (fs : ClientFS) (query : PyStr)
    (tc : ToolCallModel) (rest : List ToolCallModel) (msgs : List Msg) :
    ((tc.name ≠ kbToolName ∨ tc.output.json = .notJson ∨
        (∃ imgs, tc.output.json = .object true imgs ∧
          buildImageContent fs imgs = .error ())) →
      runToolLoop fs query (tc :: rest) msgs =
        { runToolLoop fs query rest (msgs ++ [.toolMsg tc.id tc.output.text]) with
          executed := tc.id ::
            (runToolLoop fs query rest (msgs ++ [.toolMsg tc.id tc.output.text])).executed }) ∧
    ((tc.name = kbToolName ∧
        ((∃ imgs, tc.output.json = .object false imgs) ∨
         (∃ imgs, tc.output.json = .object true imgs ∧
            buildImageContent fs imgs = .ok []))) →
      runToolLoop fs query (tc :: rest) msgs =
        { runToolLoop fs query rest msgs with
          executed := tc.id :: (runToolLoop fs query rest msgs).executed }) := by
  constructor
  · intro h
    have hstep : processToolCall fs tc = .cont (some (.toolMsg tc.id tc.output.text)) := by
      unfold processToolCall
      rcases h with h | h | ⟨imgs, hj, hb⟩
      · rw [if_neg h]
      · by_cases hn : tc.name = kbToolName
        · rw [if_pos hn, h]
        · rw [if_neg hn]
      · by_cases hn : tc.name = kbToolName
        · rw [if_pos hn, hj]
          simp only [if_pos]
          rw [hb]
        · rw [if_neg hn]
    simp only [runToolLoop, hstep, Option.toList]
  · rintro ⟨hn, h⟩
    have hstep : processToolCall fs tc = .cont none := by
      unfold processToolCall
      rcases h with ⟨imgs, hj⟩ | ⟨imgs, hj, hb⟩
      · rw [if_pos hn, hj]
        simp
      · rw [if_pos hn, hj]
        simp only [if_pos]
        rw [hb]
        simp
    simp only [runToolLoop, hstep, Option.toList, List.append_nil]

/-- Witness for C4 (amended): a non-knowledge-base call is appended and
the loop continues to the next call; a knowledge-base dict without the
key is dropped and the loop continues. -/
theorem c4_append_and_continue_witness :
    runToolLoop ⟨fun _ => none⟩ "q".toList
        [⟨"other_tool".toList, "idA".toList, ⟨"out".toList, .notJson⟩⟩]
        (initialMessages "q".toList) =
      { runToolLoop ⟨fun _ => none⟩ "q".toList []
          (initialMessages "q".toList ++ [.toolMsg "idA".toList "out".toList]) with
        executed := "idA".toList ::
          (runToolLoop ⟨fun _ => none⟩ "q".toList []
            (initialMessages "q".toList ++ [.toolMsg "idA".toList "out".toList])).executed } ∧
    runToolLoop ⟨fun _ => none⟩ "q".toList
        [⟨kbToolName, "idB".toList, ⟨"2".toList, .object false []⟩⟩]
        (initialMessages "q".toList) =
      { runToolLoop ⟨fun _ => none⟩ "q".toList [] (initialMessages "q".toList) with
        executed := "idB".toList ::
          (runToolLoop ⟨fun _ => none⟩ "q".toList []
            (initialMessages "q".toList)).executed } :=
  ⟨(c4_append_and_continue ⟨fun _ => none⟩ "q".toList
      ⟨"other_tool".toList, "idA".toList, ⟨"out".toList, .notJson⟩⟩ []
      (initialMessages "q".toList)).1 (Or.inl (by decide)),
   (c4_append_and_continue ⟨fun _ => none⟩ "q".toList
      ⟨kbToolName, "idB".toList, ⟨"2".toList, .object false []⟩⟩ []
      (initialMessages "q".toList)).2 ⟨rfl, Or.inl ⟨[], rfl⟩⟩⟩

theorem pyContains_exists {hay needle : PyStr} (h : pyContains hay needle = true) :
    ∃ i, needle.isPrefixOf (hay.drop i) = true := by
  unfold pyContains at h
  rw [List.any_eq_true] at h
  obtain ⟨i, _, hi⟩ := h
  exact ⟨i, hi⟩

theorem toLower_fixed_of_match {t k : PyStr}
    (h : pyContains (pyToLower t) k = true) : pyToLower k = k := by
  obtain ⟨i, hi⟩ := pyContains_exists h
  rw [List.isPrefixOf_iff_prefix] at hi
  have hfix : ∀ c ∈ k, Char.toLower c = c := by
    intro c hc
    have hct : c ∈ pyToLower t :=
      (List.drop_sublist i (pyToLower t)).subset (hi.sublist.subset hc)
    rw [pyToLower, List.mem_map] at hct
    obtain ⟨d, _, hd⟩ := hct
    rw [← hd, toLowerIdem]
  calc pyToLower k = k.map (fun c => c) := List.map_congr_left hfix
    _ = k := List.map_id' k

theorem score_le_ci_unique (t : PyStr) (K : List PyStr) :
    calculate_relevance_score t K ≤ ((K.map pyToLower).dedup).length := by
  unfold calculate_relevance_score
  have hnd : (K.dedup.filter (fun k => pyContains (pyToLower t) k)).Nodup :=
    (List.nodup_dedup K).filter _
  have hsub : (K.dedup.filter (fun k => pyContains (pyToLower t) k)) ⊆
      (K.map pyToLower).dedup := by
    intro k hk
    rw [List.mem_filter] at hk
    obtain ⟨hkK, hmatch⟩ := hk
    rw [List.mem_dedup, ← toLower_fixed_of_match hmatch]
    exact List.mem_map_of_mem pyToLower (List.mem_dedup.mp hkK)
  exact (hnd.subperm hsub).length_le

/-- Counterexample to C3 as stated: the keyword is not lowercased inside
the function, so a keyword containing an upper-case letter never matches
the lowercased page text — the score is not the case-insensitive count. -/
theorem c3_counterexample :
    calculate_relevance_score "alpha".toList ["Alpha".toList] = 0 ∧
    spec_ci_score "alpha".toList ["Alpha".toList] = 1 := by
  decide

/-- Claim C3 (amended): the score counts the distinct keywords (verbatim,
case-sensitively de-duplicated) occurring in the lowercased page text; it
is bounded by the number of distinct keywords (also by the number of
case-insensitively distinct keywords), is invariant under reordering and
duplication of the keyword list, and coincides with the case-insensitive
count whenever the keywords are already lowercase — as the
`get_knowledge_base` caller guarantees. -/
theorem c3_relevance_score (t : PyStr) (K : List PyStr) :
    calculate_relevance_score t K =
      ((K.dedup).filter (fun k => pyContains (pyToLower t) k)).length ∧
    calculate_relevance_score t K ≤ K.dedup.length ∧
    calculate_relevance_score t K ≤ ((K.map pyToLower).dedup).length ∧
    (∀ K2, (∀ k, k ∈ K ↔ k ∈ K2) →
      calculate_relevance_score t K = calculate_relevance_score t K2) ∧
    ((∀ k ∈ K, pyToLower k = k) →
      calculate_relevance_score t K = spec_ci_score t K) := by
  refine ⟨rfl, List.length_filter_le _ _, score_le_ci_unique t K, ?_, ?_⟩
  · intro K2 h
    unfold calculate_relevance_score
    apply List.Perm.length_eq
    apply (List.perm_ext_iff_of_nodup
      ((List.nodup_dedup K).filter _) ((List.nodup_dedup K2).filter _)).mpr
    intro a
    simp [List.mem_filter, List.mem_dedup, h a]
  · intro h
    unfold calculate_relevance_score spec_ci_score
    have hmap : K.map pyToLower = K := by
      calc K.map pyToLower = K.map (fun a => a) := List.map_congr_left h
        _ = K := List.map_id' K
    rw [hmap]

/-- Witness for C3 (amended): order/duplication invariance and the
coincidence with the case-insensitive count on concrete lowercase
keywords. -/
theorem c3_relevance_score_witness :
    calculate_relevance_score "the alpha".toList ["alpha".toList, "beta".toList] =
      calculate_relevance_score "the alpha".toList
        ["beta".toList, "alpha".toList, "beta".toList] ∧
    calculate_relevance_score "the alpha".toList ["alpha".toList, "beta".toList] =
      spec_ci_score "the alpha".toList ["alpha".toList, "beta".toList] :=
  ⟨(c3_relevance_score _ _).2.2.2.1 _
     (by intro k; simp [List.mem_cons]; tauto),
   (c3_relevance_score _ _).2.2.2.2 (by decide)⟩

theorem pageLE_trans (a b c : Nat × PyStr × Nat) :
    pageLE a b = true → pageLE b c = true → pageLE a c = true := by
  simp only [pageLE, decide_eq_true_eq]
  omega

theorem pageLE_total (a b : Nat × PyStr × Nat) : pageLE a b || pageLE b a := by
  simp only [pageLE]
  by_cases h : b.1 ≤ a.1 <;> simp [h] <;> omega

/-- Claim C2: the ranked sequence is non-increasing by score, stable
(score ties keep encounter order), and truncated to at most 5 entries;
in Scenario E, 7 qualifying pages scoring [3,3,2,2,1,1,1] in encounter
order rank as exactly their first five in that order. -/
theorem c2_ranking :
    (∀ (relevant_pages : List (Nat × PyStr × Nat)),
      (rankPages relevant_pages).length ≤ 5 ∧
      (rankPages relevant_pages).Pairwise (fun a b => b.1 ≤ a.1) ∧
      (∀ a b, a.1 = b.1 → [a, b].Sublist relevant_pages →
        [a, b].Sublist (relevant_pages.mergeSort pageLE))) ∧
    scanFiles ["a".toList, "b".toList, "c".toList] scenarioFiles = .ok scenarioPages ∧
    rankPages scenarioPages = scenarioPages.take 5 := by
  refine ⟨fun l => ⟨?_, ?_, ?_⟩, rfl, ?_⟩
  · exact List.length_take_le 5 _
  · have hs := List.sorted_mergeSort pageLE_trans pageLE_total l
    have hs2 : (l.mergeSort pageLE).Pairwise (fun a b => b.1 ≤ a.1) :=
      hs.imp (fun h => by simpa [pageLE] using h)
    exact List.Pairwise.sublist (List.take_sublist 5 _) hs2
  · intro a b hab hsub
    refine List.pair_sublist_mergeSort pageLE_trans pageLE_total ?_ hsub
    simp [pageLE, hab]
  · unfold rankPages
    rw [List.mergeSort_of_sorted
      (by decide : scenarioPages.Pairwise (fun a b => pageLE a b = true))]

/-- Witness for C2: the stability clause applied to the two tied
top-score pages of Scenario E. -/
theorem c2_ranking_witness :
    (rankPages scenarioPages).length ≤ 5 ∧
    [(3, "notes.pdf".toList, 1), (3, "notes.pdf".toList, 2)].Sublist
      (scenarioPages.mergeSort pageLE) :=
  ⟨(c2_ranking.1 scenarioPages).1,
   (c2_ranking.1 scenarioPages).2.2 _ _ rfl (by decide)⟩

theorem excerptLoopGo_mem {text textLower kw kwLower : PyStr} {L : Nat}
    (fuel start : Nat) (acc : List PyStr) {e : PyStr}
    (he : e ∈ excerptLoopGo text textLower kw kwLower L fuel start acc) :
    e ∈ acc ∨ ∃ pos, occursAt kwLower textLower pos = true ∧
      e = mkExcerpt text kw L pos := by
  induction fuel generalizing start acc with
  | zero => exact Or.inl he
  | succ n ih =>
    rw [excerptLoopGo] at he
    cases hf : pyFindFrom textLower kwLower start with
    | none =>
      rw [hf] at he
      exact Or.inl he
    | some pos =>
      rw [hf] at he
      rcases ih _ _ he with hin | hex
      · by_cases hmem : mkExcerpt text kw L pos ∈ acc
        · rw [if_pos hmem] at hin
          exact Or.inl hin
        · rw [if_neg hmem] at hin
          rcases List.mem_append.mp hin with h1 | h2
          · exact Or.inl h1
          · exact Or.inr ⟨pos, (pyFindFrom_bounds hf).2.2, by simpa using h2⟩
      · exact Or.inr hex

theorem extract_mem_aux (text : PyStr) (L : Nat) (kws : List PyStr)
    (acc : List PyStr) {e : PyStr}
    (he : e ∈ kws.foldl
      (fun ex kw => excerptLoop text (pyToLower text) kw (pyToLower kw) L 0 ex) acc) :
    e ∈ acc ∨ ∃ kw ∈ kws, ∃ pos,
      occursAt (pyToLower kw) (pyToLower text) pos = true ∧
      e = mkExcerpt text kw L pos := by
  induction kws generalizing acc with
  | nil => exact Or.inl he
  | cons k rest ih =>
    simp only [List.foldl_cons] at he
    rcases ih _ he with hin | ⟨kw, hkw, pos, hocc, heq⟩
    · unfold excerptLoop at hin
      rcases excerptLoopGo_mem _ _ _ hin with h1 | ⟨pos, hocc, heq⟩
      · exact Or.inl h1
      · exact Or.inr ⟨k, by simp, pos, hocc, heq⟩
    · exact Or.inr ⟨kw, by simp [hkw], pos, hocc, heq⟩

/-- Counterexample to C8 as stated: the emphasis substitution writes back
the caller-supplied keyword, not the matched text — the original casing
`Alpha` does not survive into the excerpt. -/
theorem c8_counterexample :
    extract_relevant_excerpts "Alpha".toList ["alpha".toList] 200 =
      ["**alpha**".toList] ∧
    pyContains "**alpha**".toList "Alpha".toList = false := by
  decide

theorem pyFindFrom_none {hay needle : PyStr} {start : Nat}
    (h : pyFindFrom hay needle start = none) :
    ∀ i, start ≤ i → i ≤ hay.length → occursAt needle hay i = false := by
  intro i hsi hil
  by_contra hocc
  rw [Bool.not_eq_false] at hocc
  unfold pyFindFrom at h
  rw [List.head?_eq_none_iff] at h
  have hmem : i ∈ (List.range (hay.length + 1)).filter
      (fun j => decide (start ≤ j) && occursAt needle hay j) := by
    rw [List.mem_filter, List.mem_range]
    exact ⟨by omega, by simp [hsi, hocc]⟩
  rw [h] at hmem
  exact absurd hmem (List.not_mem_nil i)

theorem pyFindFrom_least {hay needle : PyStr} {start pos : Nat}
    (h : pyFindFrom hay needle start = some pos) :
    ∀ i, start ≤ i → i < pos → occursAt needle hay i = false := by
  intro i hsi hip
  by_contra hocc
  rw [Bool.not_eq_false] at hocc
  have hil : i ≤ hay.length := by
    have := (pyFindFrom_bounds h).2.1
    omega
  unfold pyFindFrom at h
  have hmem : i ∈ (List.range (hay.length + 1)).filter
      (fun j => decide (start ≤ j) && occursAt needle hay j) := by
    rw [List.mem_filter, List.mem_range]
    exact ⟨by omega, by simp [hsi, hocc]⟩
  have hsorted : ((List.range (hay.length + 1)).filter
      (fun j => decide (start ≤ j) && occursAt needle hay j)).Pairwise (· < ·) :=
    List.Pairwise.sublist (List.filter_sublist _) (List.pairwise_lt_range _)
  cases hfl : (List.range (hay.length + 1)).filter
      (fun j => decide (start ≤ j) && occursAt needle hay j) with
  | nil =>
    rw [hfl] at hmem
    exact absurd hmem (List.not_mem_nil i)
  | cons a tl =>
    rw [hfl] at h hmem hsorted
    have ha : a = pos := by simpa using h
    subst ha
    rcases List.mem_cons.mp hmem with heq | htl
    · omega
    · have := List.rel_of_pairwise_cons hsorted htl
      omega

theorem excerptLoopGo_mono {text textLower kw kwLower : PyStr} {L : Nat}
    (fuel start : Nat) (acc : List PyStr) :
    acc ⊆ excerptLoopGo text textLower kw kwLower L fuel start acc := by
  induction fuel generalizing start acc with
  | zero => exact fun e he => he
  | succ n ih =>
    rw [excerptLoopGo]
    cases hf : pyFindFrom textLower kwLower start with
    | none => exact fun e he => he
    | some pos =>
      intro e he
      apply ih
      by_cases hmem : mkExcerpt text kw L pos ∈ acc
      · rw [if_pos hmem]
        exact he
      · rw [if_neg hmem]
        exact List.mem_append_left _ he

theorem excerptLoopGo_complete {text textLower kw kwLower : PyStr} {L : Nat}
    (fuel start : Nat) (acc : List PyStr) {pos : Nat}
    (hpos : pos ≤ textLower.length)
    (hocc : occursAt kwLower textLower pos = true)
    (hfuel : textLower.length + 1 ≤ fuel + start)
    (hstart : start ≤ pos) :
    mkExcerpt text kw L pos ∈
      excerptLoopGo text textLower kw kwLower L fuel start acc := by
  induction fuel generalizing start acc with
  | zero => omega
  | succ n ih =>
    rw [excerptLoopGo]
    cases hf : pyFindFrom textLower kwLower start with
    | none =>
      have := pyFindFrom_none hf pos hstart hpos
      rw [hocc] at this
      exact absurd this (by simp)
    | some p =>
      obtain ⟨hsp, hpl, hop⟩ := pyFindFrom_bounds hf
      by_cases hpe : pos = p
      · subst hpe
        apply excerptLoopGo_mono
        by_cases hmem : mkExcerpt text kw L pos ∈ acc
        · rw [if_pos hmem]
          exact hmem
        · rw [if_neg hmem]
          exact List.mem_append_right _ (by simp)
      · have hplt : p < pos := by
          rcases Nat.lt_or_ge pos p with hlt | hge
          · have := pyFindFrom_least hf pos hstart hlt
            rw [hocc] at this
            exact absurd this (by simp)
          · omega
        exact ih (p + 1) _ (by omega) (by omega)

theorem excerptLoopGo_nodup {text textLower kw kwLower : PyStr} {L : Nat}
    (fuel start : Nat) (acc : List PyStr) (h : acc.Nodup) :
    (excerptLoopGo text textLower kw kwLower L fuel start acc).Nodup := by
  induction fuel generalizing start acc with
  | zero => exact h
  | succ n ih =>
    rw [excerptLoopGo]
    cases hf : pyFindFrom textLower kwLower start with
    | none => exact h
    | some pos =>
      apply ih
      by_cases hmem : mkExcerpt text kw L pos ∈ acc
      · rw [if_pos hmem]
        exact h
      · rw [if_neg hmem]
        simp [List.nodup_append, h, hmem]

theorem extract_fold_mono (text : PyStr) (L : Nat) (kws : List PyStr)
    (acc : List PyStr) :
    acc ⊆ kws.foldl
      (fun ex kw => excerptLoop text (pyToLower text) kw (pyToLower kw) L 0 ex) acc := by
  induction kws generalizing acc with
  | nil => exact fun e he => he
  | cons k rest ih =>
    intro e he
    simp only [List.foldl_cons]
    refine ih _ ?_
    unfold excerptLoop
    exact excerptLoopGo_mono _ _ _ he

theorem extract_fold_complete (text : PyStr) (L : Nat) (kws : List PyStr)
    (acc : List PyStr) {kw : PyStr} {pos : Nat}
    (hkw : kw ∈ kws) (hpos : pos ≤ text.length)
    (hocc : occursAt (pyToLower kw) (pyToLower text) pos = true) :
    mkExcerpt text kw L pos ∈ kws.foldl
      (fun ex k => excerptLoop text (pyToLower text) k (pyToLower k) L 0 ex) acc := by
  induction kws generalizing acc with
  | nil => exact absurd hkw (List.not_mem_nil kw)
  | cons k rest ih =>
    simp only [List.foldl_cons]
    rcases List.mem_cons.mp hkw with heq | hmem
    · subst heq
      apply extract_fold_mono
      unfold excerptLoop
      refine excerptLoopGo_complete _ 0 _ ?_ hocc ?_ (Nat.zero_le _)
      · simpa [pyToLower] using hpos
      · simp
    · exact ih _ hmem

theorem extract_fold_nodup (text : PyStr) (L : Nat) (kws : List PyStr)
    (acc : List PyStr) (h : acc.Nodup) :
    (kws.foldl
      (fun ex kw => excerptLoop text (pyToLower text) kw (pyToLower kw) L 0 ex)
      acc).Nodup := by
  induction kws generalizing acc with
  | nil => exact h
  | cons k rest ih =>
    simp only [List.foldl_cons]
    refine ih _ ?_
    unfold excerptLoop
    exact excerptLoopGo_nodup _ _ _ h

/-- Claim C8 (amended): (soundness) every emitted excerpt arises from
some occurrence `pos` of a keyword (lowercased keyword in lowercased
text) as the slice
`text[max(0, pos - L/2) : min(len, pos + len(kw) + L/2)]` — a window of
`excerptLength + len(kw)` characters before trimming — stripped of
surrounding whitespace, in which every case-insensitive occurrence of the
keyword is replaced by the caller-cased keyword wrapped in `**` markers
(`mkExcerpt`); (completeness) every occurrence of every keyword
contributes its excerpt to the output; (deduplication) the output
contains no duplicate excerpt strings. -/
theorem c8_excerpt_shape (text : PyStr) (keywords : List PyStr)
    (excerpt_length : Nat) :
    (∀ e ∈ extract_relevant_excerpts text keywords excerpt_length,
      ∃ kw ∈ keywords, ∃ pos,
        occursAt (pyToLower kw) (pyToLower text) pos = true ∧
        e = mkExcerpt text kw excerpt_length pos) ∧
    (∀ kw ∈ keywords, ∀ pos, pos ≤ text.length →
      occursAt (pyToLower kw) (pyToLower text) pos = true →
      mkExcerpt text kw excerpt_length pos ∈
        extract_relevant_excerpts text keywords excerpt_length) ∧
    (extract_relevant_excerpts text keywords excerpt_length).Nodup := by
  refine ⟨?_, ?_, ?_⟩
  · intro e he
    unfold extract_relevant_excerpts at he
    rcases extract_mem_aux text excerpt_length keywords [] he with h | h
    · exact absurd h (List.not_mem_nil e)
    · exact h
  · intro kw hkw pos hpos hocc
    unfold extract_relevant_excerpts
    exact extract_fold_complete text excerpt_length keywords [] hkw hpos hocc
  · unfold extract_relevant_excerpts
    exact extract_fold_nodup text excerpt_length keywords [] List.nodup_nil

/-- Witness for C8 (amended) on a concrete extraction: the single output
excerpt is sound, the occurrence at position 1 contributes it, and the
output is duplicate-free. -/
theorem c8_excerpt_shape_witness :
    "**beta**".toList ∈ extract_relevant_excerpts "xBETAx".toList ["beta".toList] 0 ∧
    (∃ kw ∈ ["beta".toList], ∃ pos,
      occursAt (pyToLower kw) (pyToLower "xBETAx".toList) pos = true ∧
      "**beta**".toList = mkExcerpt "xBETAx".toList kw 0 pos) ∧
    mkExcerpt "xBETAx".toList "beta".toList 0 1 ∈
      extract_relevant_excerpts "xBETAx".toList ["beta".toList] 0 ∧
    (extract_relevant_excerpts "xBETAx".toList ["beta".toList] 0).Nodup :=
  ⟨by decide,
   (c8_excerpt_shape _ _ _).1 _ (by decide),
   (c8_excerpt_shape _ _ _).2.1 _ (by decide) 1 (by decide) (by decide),
   (c8_excerpt_shape _ _ _).2.2⟩
